import Mathlib

/-!
Verification of the Streaming Bridge (`src/interpreter_bridge.py`) of the
remote-computer-control repository.

The bridge turns a thread-confined chunk producer (`_run_interpreter_stream`)
into an ordered, coalesced block stream (`process_message_stream`).  We embed
the producer-side normalisation, the consumer-side coalescing loop, and the
`load_context` operation as pure Lean functions.  Wall-clock instants are
modelled as integers counting milliseconds (Python `time.time()` returns
seconds; we scale by 1000 so that the source's `0.5`-second flush threshold is
the integer 500, keeping every comparison order-faithful while staying
kernel-computable); each queue chunk carries the instant at which the loop
pops it.
-/

namespace Bridge

/-- String constants from `constants.MessageType`. -/
def MESSAGE : String := "message"

def CONSOLE : String := "console"

def CONFIRMATION : String := "confirmation"

def ERROR : String := "error"

def CANCELLED : String := "cancelled"

/-- Content of a chunk: either plain text or a structured payload
(a Python `dict`, modelled as an association list). -/
inductive Content where
  | text (s : String)
  | struct (fields : List (String × String))
  deriving DecidableEq, Repr

/-- Whether the content is a structured payload (`isinstance(content, dict)`). -/
def Content.isStruct : Content → Bool
  | .text _ => false
  | .struct _ => true

/-- The text of a content value; only applied on branches where the source
guarantees the content is not a dict (the atomic-flush test precedes). -/
def Content.textD : Content → String
  | .text s => s
  | .struct _ => ""

/-- The `metadata` dict built by the coalescer (lines 157-160, 190-193). -/
structure Metadata where
  format : String
  role : String
  deriving DecidableEq, Repr

/-- A dict sitting in the transfer queue.  Producer-normalised chunks carry all
four keys; the `cancelled` and `error` chunks carry only `type` and `content`,
hence `role` and `format` are optional. -/
structure QueueChunk where
  role : Option String
  kind : String
  content : Content
  format : Option String
  deriving DecidableEq, Repr

/-- A queue chunk together with the wall-clock instant (in milliseconds) at
which the coalescer pops it (the value `time.time()` returns while that chunk
is processed, scaled by 1000). -/
structure TimedChunk where
  chunk : QueueChunk
  time : Int
  deriving DecidableEq, Repr

/-- A value yielded by `process_message_stream`: either a dict built by the
coalescer (`type`, `content`, optional `metadata` key), or a queue chunk
passed through verbatim (`yield chunk`). -/
inductive Emit where
  | block (kind : String) (content : String) (metadata : Option Metadata)
  | raw (chunk : QueueChunk)
  deriving DecidableEq, Repr

/-- The `type` field of a yielded value. -/
def Emit.kindOf : Emit → String
  | .block k _ _ => k
  | .raw c => c.kind

/-- The content of a yielded value. -/
def Emit.contentOf : Emit → Content
  | .block _ s _ => .text s
  | .raw c => c.content

/-- The `metadata` key of a yielded value (raw chunks have none). -/
def Emit.md : Emit → Option Metadata
  | .block _ _ m => m
  | .raw _ => none

/-- Coalescer state: `current_type`, `current_metadata`, `accumulated_content`
and `last_yield_time` of `process_message_stream`. -/
structure CoState where
  currentType : Option String
  currentMeta : Option Metadata
  accumulated : List String
  lastYield : Int
  deriving DecidableEq, Repr

/-- State at stream start (lines 140-143): empty buffer, unset type,
`last_yield_time = time.time()` at invocation start `t0`. -/
def initState (t0 : Int) : CoState :=
  { currentType := none, currentMeta := none, accumulated := [], lastYield := t0 }

/-- Result of processing one popped chunk: values yielded, successor state and
whether the loop `break`s. -/
structure StepResult where
  emits : List Emit
  state : CoState
  brk : Bool
  deriving DecidableEq, Repr

/-- The metadata dict built from a chunk (`chunk.get('format','text')`,
`chunk.get('role','assistant')`). -/
def metaOf (c : QueueChunk) : Metadata :=
  { format := c.format.getD "text", role := c.role.getD "assistant" }

/-- One iteration of the coalescing loop body (lines 148-206) on a popped
chunk.  Mirrors the source branch for branch: the `cancelled` passthrough and
break (151-153), adoption of the chunk's kind when `current_type` is unset
(155-160), the atomic-flush path keyed on `current_type == CONFIRMATION` or a
dict content (162-179), the type-change flush (181-194, yielded without a
metadata key), and accumulation with the 0.5 s (here 500 ms) / more-than-10-fragments
threshold flush (196-206). -/
def processChunk (s : CoState) (tc : TimedChunk) : StepResult :=
  if tc.chunk.kind = CANCELLED then
    { emits := [.raw tc.chunk], state := s, brk := true }
  else if s.currentType.getD tc.chunk.kind = CONFIRMATION ∨ tc.chunk.content.isStruct then
    { emits :=
        (if s.accumulated = [] then []
         else [Emit.block (s.currentType.getD tc.chunk.kind) (String.join s.accumulated)
                 (if s.currentType = none then some (metaOf tc.chunk) else s.currentMeta)])
        ++ [.raw tc.chunk],
      state := { currentType := none, currentMeta := none, accumulated := [],
                 lastYield := tc.time },
      brk := false }
  else if tc.chunk.kind ≠ s.currentType.getD tc.chunk.kind then
    { emits :=
        if s.accumulated = [] then []
        else [Emit.block (s.currentType.getD tc.chunk.kind) (String.join s.accumulated) none],
      state := { currentType := some tc.chunk.kind, currentMeta := some (metaOf tc.chunk),
                 accumulated := [tc.chunk.content.textD], lastYield := tc.time },
      brk := false }
  else if tc.time - s.lastYield > 500 ∨ (s.accumulated ++ [tc.chunk.content.textD]).length > 10 then
    { emits := [Emit.block (s.currentType.getD tc.chunk.kind)
                  (String.join (s.accumulated ++ [tc.chunk.content.textD]))
                  (if s.currentType = none then some (metaOf tc.chunk) else s.currentMeta)],
      state := { currentType := some (s.currentType.getD tc.chunk.kind),
                 currentMeta := if s.currentType = none then some (metaOf tc.chunk) else s.currentMeta,
                 accumulated := [], lastYield := tc.time },
      brk := false }
  else
    { emits := [],
      state := { currentType := some (s.currentType.getD tc.chunk.kind),
                 currentMeta := if s.currentType = none then some (metaOf tc.chunk) else s.currentMeta,
                 accumulated := s.accumulated ++ [tc.chunk.content.textD],
                 lastYield := s.lastYield },
      brk := false }

/-- The trailing flush after the loop exits (lines 215-220); note it runs even
when the loop was left through the `break` of the cancelled branch, and it
yields without a metadata key. -/
def finalFlush (s : CoState) : List Emit :=
  if s.accumulated = [] then []
  else [Emit.block (s.currentType.getD "") (String.join s.accumulated) none]

/-- The whole consumer loop of `process_message_stream` over the sequence of
chunks popped from the queue, followed by the trailing flush. -/
def coalesceLoop : CoState → List TimedChunk → List Emit
  | s, [] => finalFlush s
  | s, tc :: rest =>
    if (processChunk s tc).brk then
      (processChunk s tc).emits ++ finalFlush (processChunk s tc).state
    else
      (processChunk s tc).emits ++ coalesceLoop (processChunk s tc).state rest

/-- The literal content of the degraded-state error block (lines 118-123). -/
def initErrMsg : String := "Interpreter not initialized. Check LM Studio is running."

/-- `process_message_stream` at the invocation boundary: with an uninitialised
interpreter it yields the single error dict and returns; otherwise it runs the
coalescing loop over the chunks popped from the queue. -/
def streamInvoke (initialized : Bool) (t0 : Int) (queue : List TimedChunk) : List Emit :=
  if initialized then coalesceLoop (initState t0) queue
  else [Emit.block ERROR initErrMsg none]

/-- A unit received from the underlying engine's streaming call, as seen by
`_run_interpreter_stream`: a dict whose modelled keys may be absent;
`hasOtherKeys` records whether any unmodelled key (such as `start`) is
present, which matters only for Python truthiness of the dict. -/
structure EngineUnit where
  role : Option String
  kind : Option String
  content : Option Content
  format : Option String
  hasOtherKeys : Bool
  deriving DecidableEq, Repr

/-- Python truthiness of the unit dict (`if chunk:`): non-empty. -/
def EngineUnit.truthy (u : EngineUnit) : Bool :=
  u.role.isSome || u.kind.isSome || u.content.isSome || u.format.isSome || u.hasOtherKeys

/-- Per-unit normalisation and filtering of `_run_interpreter_stream`
(lines 244-256): require a truthy dict with a `content` key, drop console
active-line markers, and otherwise push the normalised chunk with defaulted
`role`, `type` and `format`. -/
def normalizeUnit (u : EngineUnit) : Option QueueChunk :=
  if u.truthy then
    match u.content with
    | some c =>
      if u.kind = some CONSOLE ∧ u.format = some "active_line" then none
      else some { role := some (u.role.getD "assistant"), kind := u.kind.getD MESSAGE,
                  content := c, format := some (u.format.getD "text") }
    | none => none
  else none

/-- The chunk pushed when the producer observes the cancellation flag
(lines 237-240): only `type` and `content` keys. -/
def cancelChunk : QueueChunk :=
  { role := none, kind := CANCELLED, content := .text "Task cancelled by user", format := none }

/-- The chunk pushed when the engine call raises (lines 260-263). -/
def errChunk (e : String) : QueueChunk :=
  { role := none, kind := ERROR, content := .text e, format := none }

/-- Whether the cancellation flag is observed as set before processing unit
`i`; `cancelAt = some k` means an external `cancel_current_task()` call lands
before the producer examines unit `k`. -/
def flagObserved (cancelAt : Option Nat) (i : Nat) : Bool :=
  match cancelAt with
  | some k => decide (k ≤ i)
  | none => false

/-- The producer loop of `_run_interpreter_stream` from unit index `i`:
check the flag before each unit (push one `cancelled` chunk and stop when
set), else filter/normalise and push; when the engine call raises after
yielding all listed units (`exc = some e`), push a single `error` chunk and
stop. -/
def runProducerFrom (cancelAt : Option Nat) (exc : Option String) :
    Nat → List EngineUnit → List QueueChunk
  | _, [] => match exc with | some e => [errChunk e] | none => []
  | i, u :: rest =>
    if flagObserved cancelAt i then [cancelChunk]
    else match normalizeUnit u with
      | some c => c :: runProducerFrom cancelAt exc (i + 1) rest
      | none => runProducerFrom cancelAt exc (i + 1) rest

/-- Everything `_run_interpreter_stream` pushes onto the transfer queue for
one invocation. -/
def runProducer (units : List EngineUnit) (cancelAt : Option Nat)
    (exc : Option String) : List QueueChunk :=
  runProducerFrom cancelAt exc 0 units

/-- Attach pop instants to a produced chunk list starting at index `i`. -/
def timedFrom (tf : Nat → Int) : Nat → List QueueChunk → List TimedChunk
  | _, [] => []
  | i, c :: rest => { chunk := c, time := tf i } :: timedFrom tf (i + 1) rest

/-- Attach pop instants to a produced chunk list (`tf i` is the wall-clock
instant at which chunk `i` is popped by the coalescer). -/
def timed (tf : Nat → Int) (l : List QueueChunk) : List TimedChunk :=
  timedFrom tf 0 l

/-- One prior-turn entry of the conversation context. -/
structure CtxEntry where
  role : String
  kind : String
  content : String
  deriving DecidableEq, Repr

/-- The engine's mutable conversation state (`interpreter.messages`). -/
structure EngineConv where
  messages : List CtxEntry
  deriving DecidableEq, Repr

/-- The `load_context` method (lines 99-107): only with a live interpreter and
a non-empty entry list does it replace the conversation history. -/
def load_context (interp : Option EngineConv) (msgs : List CtxEntry) : Option EngineConv :=
  match interp with
  | some st => if msgs ≠ [] then some { st with messages := msgs } else some st
  | none => none

/-! ### Instrumented coalescer

The same loop, augmented with ghost data: each yielded value records which of
the six yield sites of the source produced it and the list of queue chunks
whose content it carries.  `coalesceLoopI_proj` below proves the ghost fields
change nothing: erasing them gives back `coalesceLoop`. -/

/-- The six yield sites of `process_message_stream`: the cancelled passthrough
(line 152), the flush before an atomic emit (166-170), the atomic passthrough
(174), the type-change flush (184-187), the periodic threshold flush
(200-204) and the trailing flush after the loop (217-220). -/
inductive ETag where
  | cancelledRaw
  | preAtomicFlush
  | atomicRaw
  | typeChangeFlush
  | thresholdFlush
  | endFlush
  deriving DecidableEq, Repr

/-- A yielded value with its yield site and the chunks coalesced into it. -/
structure IEmit where
  emit : Emit
  tag : ETag
  sources : List QueueChunk
  deriving DecidableEq, Repr

/-- Coalescer state plus the ghost list of chunks currently buffered. -/
structure CoStateI where
  st : CoState
  srcBuf : List QueueChunk
  deriving DecidableEq, Repr

/-- Instrumented initial state. -/
def initStateI (t0 : Int) : CoStateI :=
  { st := initState t0, srcBuf := [] }

/-- Result of one instrumented loop iteration. -/
structure StepResultI where
  emits : List IEmit
  state : CoStateI
  brk : Bool
  deriving DecidableEq, Repr

/-- Instrumented copy of `processChunk`; the observable parts are identical
branch for branch, only tags and source lists are added. -/
def processChunkI (s : CoStateI) (tc : TimedChunk) : StepResultI :=
  if tc.chunk.kind = CANCELLED then
    { emits := [⟨.raw tc.chunk, .cancelledRaw, [tc.chunk]⟩], state := s, brk := true }
  else if s.st.currentType.getD tc.chunk.kind = CONFIRMATION ∨ tc.chunk.content.isStruct then
    { emits :=
        (if s.st.accumulated = [] then []
         else [⟨Emit.block (s.st.currentType.getD tc.chunk.kind) (String.join s.st.accumulated)
                  (if s.st.currentType = none then some (metaOf tc.chunk) else s.st.currentMeta),
                .preAtomicFlush, s.srcBuf⟩])
        ++ [⟨.raw tc.chunk, .atomicRaw, [tc.chunk]⟩],
      state := { st := { currentType := none, currentMeta := none, accumulated := [],
                         lastYield := tc.time },
                 srcBuf := [] },
      brk := false }
  else if tc.chunk.kind ≠ s.st.currentType.getD tc.chunk.kind then
    { emits :=
        if s.st.accumulated = [] then []
        else [⟨Emit.block (s.st.currentType.getD tc.chunk.kind) (String.join s.st.accumulated) none,
               .typeChangeFlush, s.srcBuf⟩],
      state := { st := { currentType := some tc.chunk.kind, currentMeta := some (metaOf tc.chunk),
                         accumulated := [tc.chunk.content.textD], lastYield := tc.time },
                 srcBuf := [tc.chunk] },
      brk := false }
  else if tc.time - s.st.lastYield > 500 ∨ (s.st.accumulated ++ [tc.chunk.content.textD]).length > 10 then
    { emits := [⟨Emit.block (s.st.currentType.getD tc.chunk.kind)
                   (String.join (s.st.accumulated ++ [tc.chunk.content.textD]))
                   (if s.st.currentType = none then some (metaOf tc.chunk) else s.st.currentMeta),
                 .thresholdFlush, s.srcBuf ++ [tc.chunk]⟩],
      state := { st := { currentType := some (s.st.currentType.getD tc.chunk.kind),
                         currentMeta := if s.st.currentType = none then some (metaOf tc.chunk)
                                        else s.st.currentMeta,
                         accumulated := [], lastYield := tc.time },
                 srcBuf := [] },
      brk := false }
  else
    { emits := [],
      state := { st := { currentType := some (s.st.currentType.getD tc.chunk.kind),
                         currentMeta := if s.st.currentType = none then some (metaOf tc.chunk)
                                        else s.st.currentMeta,
                         accumulated := s.st.accumulated ++ [tc.chunk.content.textD],
                         lastYield := s.st.lastYield },
                 srcBuf := s.srcBuf ++ [tc.chunk] },
      brk := false }

/-- Instrumented trailing flush. -/
def finalFlushI (s : CoStateI) : List IEmit :=
  if s.st.accumulated = [] then []
  else [⟨Emit.block (s.st.currentType.getD "") (String.join s.st.accumulated) none,
         .endFlush, s.srcBuf⟩]

/-- Instrumented consumer loop. -/
def coalesceLoopI : CoStateI → List TimedChunk → List IEmit
  | s, [] => finalFlushI s
  | s, tc :: rest =>
    if (processChunkI s tc).brk then
      (processChunkI s tc).emits ++ finalFlushI (processChunkI s tc).state
    else
      (processChunkI s tc).emits ++ coalesceLoopI (processChunkI s tc).state rest

/-- A yielded value is consistent with its ghost sources: a passthrough chunk
records itself, and a flush block's content is the ordered join of its
recorded sources' texts. -/
def IEmit.contentMatchesSources (b : IEmit) : Prop :=
  match b.emit with
  | .raw c => b.sources = [c]
  | .block _ str _ => str = String.join (b.sources.map (fun c => c.content.textD))

/-- Well-formedness of the instrumented state, an invariant of the loop: the
text buffer is the ghost chunk buffer's contents in order, buffered chunks are
never structured, buffered chunks all carry the current kind, at most one
chunk is ever buffered under kind `confirmation`, the buffer is empty while
the current kind is unset, and metadata is recorded exactly while a kind is
current. -/
def IWF (s : CoStateI) : Prop :=
  s.st.accumulated = s.srcBuf.map (fun c => c.content.textD)
  ∧ (∀ c ∈ s.srcBuf, c.content.isStruct = false)
  ∧ (∀ c ∈ s.srcBuf, some c.kind = s.st.currentType)
  ∧ (s.st.currentType = some CONFIRMATION → s.srcBuf.length ≤ 1)
  ∧ (s.st.currentType = none → s.srcBuf = [])
  ∧ (s.st.currentType.isSome ↔ s.st.currentMeta.isSome)

/-! ### The coalescing step as claim C3 words it

Modelled from the spec: identical to `processChunk` except that the
atomic-flush test is keyed on the popped chunk's own kind
(`chunk.kind == confirmation` or structured content), where the source tests
the adopted `current_type` instead. -/

/-- Modelled from the spec (claim C3): step with the atomic test on the
chunk's own kind. -/
def processChunkClaimC3 (s : CoState) (tc : TimedChunk) : StepResult :=
  if tc.chunk.kind = CANCELLED then
    { emits := [.raw tc.chunk], state := s, brk := true }
  else if tc.chunk.kind = CONFIRMATION ∨ tc.chunk.content.isStruct then
    { emits :=
        (if s.accumulated = [] then []
         else [Emit.block (s.currentType.getD tc.chunk.kind) (String.join s.accumulated)
                 (if s.currentType = none then some (metaOf tc.chunk) else s.currentMeta)])
        ++ [.raw tc.chunk],
      state := { currentType := none, currentMeta := none, accumulated := [],
                 lastYield := tc.time },
      brk := false }
  else if tc.chunk.kind ≠ s.currentType.getD tc.chunk.kind then
    { emits :=
        if s.accumulated = [] then []
        else [Emit.block (s.currentType.getD tc.chunk.kind) (String.join s.accumulated) none],
      state := { currentType := some tc.chunk.kind, currentMeta := some (metaOf tc.chunk),
                 accumulated := [tc.chunk.content.textD], lastYield := tc.time },
      brk := false }
  else if tc.time - s.lastYield > 500 ∨ (s.accumulated ++ [tc.chunk.content.textD]).length > 10 then
    { emits := [Emit.block (s.currentType.getD tc.chunk.kind)
                  (String.join (s.accumulated ++ [tc.chunk.content.textD]))
                  (if s.currentType = none then some (metaOf tc.chunk) else s.currentMeta)],
      state := { currentType := some (s.currentType.getD tc.chunk.kind),
                 currentMeta := if s.currentType = none then some (metaOf tc.chunk) else s.currentMeta,
                 accumulated := [], lastYield := tc.time },
      brk := false }
  else
    { emits := [],
      state := { currentType := some (s.currentType.getD tc.chunk.kind),
                 currentMeta := if s.currentType = none then some (metaOf tc.chunk) else s.currentMeta,
                 accumulated := s.accumulated ++ [tc.chunk.content.textD],
                 lastYield := s.lastYield },
      brk := false }

/-- Modelled from the spec (claim C3): the loop over `processChunkClaimC3`. -/
def coalesceLoopClaimC3 : CoState → List TimedChunk → List Emit
  | s, [] => finalFlush s
  | s, tc :: rest =>
    if (processChunkClaimC3 s tc).brk then
      (processChunkClaimC3 s tc).emits ++ finalFlush (processChunkClaimC3 s tc).state
    else
      (processChunkClaimC3 s tc).emits ++ coalesceLoopClaimC3 (processChunkClaimC3 s tc).state rest

/-! ### Concrete fixtures used by counterexamples and witnesses -/

/-- A producer-normalised plain-text chunk of kind `message`. -/
def msgChunk (s : String) : QueueChunk :=
  { role := some "assistant", kind := MESSAGE, content := .text s, format := some "text" }

/-- A producer-normalised plain-text chunk of kind `confirmation`. -/
def confChunk (s : String) : QueueChunk :=
  { role := some "assistant", kind := CONFIRMATION, content := .text s, format := some "text" }

/-- Chunks all popped at instant 0. -/
def atZero (l : List QueueChunk) : List TimedChunk :=
  timed (fun _ => 0) l

/-- An engine unit carrying plain text of kind `message`. -/
def msgUnit (s : String) : EngineUnit :=
  { role := some "assistant", kind := some MESSAGE, content := some (.text s),
    format := none, hasOtherKeys := false }

/-- An engine unit with a `type` key but no `content` key (such as the
start/end markers the engine emits around each message). -/
def markerUnit : EngineUnit :=
  { role := some "assistant", kind := some MESSAGE, content := none,
    format := none, hasOtherKeys := true }

/-- Input on which the source coalescer and the claim-C3 coalescer differ:
a text-content `confirmation` chunk arriving after a `message` run is merged
into the buffer by the source (its own kind is never tested), and the *next*
`message` chunk then takes the atomic path because `current_type` is still
`confirmation`. -/
def cexC3 : List TimedChunk :=
  atZero [msgChunk "a", confChunk "c", msgChunk "b1", msgChunk "b2"]

/-- A uniform run of two text-content `confirmation` chunks. -/
def cexC5 : List TimedChunk :=
  atZero [confChunk "A", confChunk "B"]

/-- A uniform run of eleven text-content `confirmation` chunks. -/
def cexC9 : List TimedChunk :=
  atZero (List.replicate 11 (confChunk "x"))

/-- The cancellation scenario of spec §8 example 3: one `message` chunk is
buffered when the producer's `cancelled` chunk is popped. -/
def cancelScenario : List TimedChunk :=
  timed (fun _ => 0) (runProducer [msgUnit "part1", msgUnit "later"] (some 1) none)

/-! ## Theorems -/

/-- Erasing the ghost fields of one instrumented step gives back the plain
step: the instrumentation does not change the observable behaviour. -/
theorem processChunkI_proj (s : CoStateI) (tc : TimedChunk) :
    (processChunkI s tc).emits.map IEmit.emit = (processChunk s.st tc).emits
    ∧ (processChunkI s tc).state.st = (processChunk s.st tc).state
    ∧ (processChunkI s tc).brk = (processChunk s.st tc).brk := by
  unfold processChunkI processChunk
  split_ifs <;> exact ⟨rfl, rfl, rfl⟩

/-- Erasing the ghost fields of the instrumented trailing flush gives back the
plain trailing flush. -/
theorem finalFlushI_proj (s : CoStateI) :
    (finalFlushI s).map IEmit.emit = finalFlush s.st := by
  unfold finalFlushI finalFlush
  split_ifs <;> rfl

/-- Erasing the ghost fields of the instrumented loop gives back the plain
loop. -/
theorem coalesceLoopI_proj (chunks : List TimedChunk) : ∀ s : CoStateI,
    (coalesceLoopI s chunks).map IEmit.emit = coalesceLoop s.st chunks := by
  induction chunks with
  | nil => intro s; simpa [coalesceLoopI, coalesceLoop] using finalFlushI_proj s
  | cons tc rest ih =>
    intro s
    obtain ⟨he, hs, hb⟩ := processChunkI_proj s tc
    simp only [coalesceLoopI, coalesceLoop, hb]
    by_cases hbv : (processChunk s.st tc).brk
    · simp [hbv, he, ← hs, finalFlushI_proj]
    · simp [hbv, he, ← hs, ih]

/-- C10: calling `load_context` with an empty entry list leaves the engine's
conversation state untouched, and so does calling it while the interpreter is
uninitialised — an empty context load is a no-op, not a reset. -/
theorem C10_load_context_noop :
    (∀ interp : Option EngineConv, load_context interp [] = interp)
    ∧ (∀ msgs : List CtxEntry, load_context none msgs = none) := by
  constructor
  · intro interp; cases interp <;> simp [load_context]
  · intro msgs; rfl

/-- C1 (code-bug evidence): in the spec §8 example-3 scenario — one `message`
chunk still buffered when the producer's `cancelled` chunk is popped — the
stream yields the `cancelled` block and then one more block, because the
trailing flush of `process_message_stream` (lines 215-220) also runs after the
`break` of the cancelled branch (line 153).  The claim (and the consumer,
which stops at `cancelled`) requires the `cancelled` block to be final. -/
theorem C1_block_after_cancelled :
    coalesceLoop (initState 0) cancelScenario
      = [Emit.raw cancelChunk, Emit.block MESSAGE "part1" none] := by decide

/-- C2 (code-bug evidence): in the same scenario the flattened source-chunk
lists of the emitted blocks come out as `[cancelled, message]` although the
producer pushed `[message, cancelled]` — the buffered chunk's content is
emitted after the `cancelled` block, out of production order. -/
theorem C2_sources_out_of_order :
    ((coalesceLoopI (initStateI 0) (atZero [msgChunk "part1", cancelChunk])).map
        IEmit.sources).flatten
      = [cancelChunk, msgChunk "part1"] := by decide

/-- C3 (counterexample): the coalescer does not take the immediate-emit path
exactly for chunks whose own kind is `confirmation` or whose content is
structured.  On `cexC3` the source emits four blocks where the claimed policy
emits three: the source never tests the popped chunk's own kind, only the
adopted `current_type`. -/
theorem C3_counterexample :
    coalesceLoop (initState 0) cexC3 ≠ coalesceLoopClaimC3 (initState 0) cexC3 := by decide

/-- C5 (counterexample): two `confirmation` chunks sharing one kind, arriving
together and with N = 2 ≤ 10, yield two blocks, not one — uniform-kind joining
does not apply to the `confirmation` kind, which always goes through the
atomic path. -/
theorem C5_counterexample :
    (coalesceLoop (initState 0) cexC5).length = 2 := by decide

/-- C6 (counterexample): a stream of a single `message` chunk delivers exactly
one block and that block carries no `metadata` field — the trailing flush
(lines 217-220) yields only `type` and `content`. -/
theorem C6_counterexample :
    (coalesceLoop (initState 0) (atZero [msgChunk "hi"])).map Emit.md = [none] := by decide

/-- C7 (counterexample): a truthy engine unit that carries a `type` but no
`content` key is not a console active-line marker, yet it is never pushed to
the queue — so "every other received unit is normalized and pushed" fails. -/
theorem C7_counterexample :
    normalizeUnit markerUnit = none
    ∧ ¬(markerUnit.kind = some CONSOLE ∧ markerUnit.format = some "active_line") := by decide

/-- C9 (counterexample): a uniform-kind run of eleven `confirmation` chunks
exceeds ten fragments without a type change, yet no intermediate flush of the
buffer (the threshold flush of lines 199-206, which keeps `currentKind` and
resets the buffer) ever happens: every chunk leaves through the atomic path
and the buffer stays empty. -/
theorem C9_counterexample :
    (coalesceLoopI (initStateI 0) cexC9).all
        (fun b => decide (b.tag ≠ ETag.thresholdFlush)) = true := by decide

/-- C7 (amended): the producer pushes a normalised chunk for a received unit
if and only if the unit is a truthy dict, carries a `content` key, and is not
a console active-line marker.  (The claim as stated omits the first two
conditions.) -/
theorem C7_push_iff (u : EngineUnit) :
    (normalizeUnit u).isSome
      ↔ (u.truthy = true ∧ u.content.isSome = true
          ∧ ¬(u.kind = some CONSOLE ∧ u.format = some "active_line")) := by
  cases hc : u.content
  · simp [normalizeUnit, hc]
  · simp [normalizeUnit, hc]
    split_ifs <;> simp_all

set_option maxRecDepth 8000 in
/-- C3 (amended): the coalescer takes the immediate-emit path exactly for
those popped non-cancelled chunks for which the current kind — after adopting
the chunk's own kind when it was unset — is `confirmation`, or whose content
is a structured payload; and on that path it flushes any non-empty buffered
content as one block under the current kind, then emits the chunk itself
verbatim as the last yield of the step, then resets the current kind to unset
with an empty buffer.  (The branch is characterised observably: it is the only
non-cancelled branch that leaves `currentType` unset.) -/
theorem C3_atomic_path_iff (s : CoState) (tc : TimedChunk)
    (h : tc.chunk.kind ≠ CANCELLED) :
    ((processChunk s tc).state.currentType = none ↔
      (s.currentType.getD tc.chunk.kind = CONFIRMATION ∨ tc.chunk.content.isStruct = true))
    ∧ ((s.currentType.getD tc.chunk.kind = CONFIRMATION ∨ tc.chunk.content.isStruct = true) →
        (processChunk s tc).state.accumulated = []
        ∧ (processChunk s tc).emits.getLast? = some (.raw tc.chunk)
        ∧ (s.accumulated = [] → (processChunk s tc).emits = [.raw tc.chunk])
        ∧ (s.accumulated ≠ [] → ∃ m, (processChunk s tc).emits
              = [Emit.block (s.currentType.getD tc.chunk.kind) (String.join s.accumulated) m,
                 .raw tc.chunk])) := by
  by_cases hat : s.currentType.getD tc.chunk.kind = CONFIRMATION ∨ tc.chunk.content.isStruct = true
  · refine ⟨iff_of_true ?_ hat, fun _ => ⟨?_, ?_, fun hacc => ?_, fun hacc => ?_⟩⟩
    · simp [processChunk, h, hat]
    · simp [processChunk, h, hat]
    · simp [processChunk, h, hat, List.getLast?_concat]
    · simp [processChunk, h, hat, hacc]
    · refine ⟨if s.currentType = none then some (metaOf tc.chunk) else s.currentMeta, ?_⟩
      simp [processChunk, h, hat, hacc]
  · have hnot : ¬((processChunk s tc).state.currentType = none) := by
      simp only [processChunk, if_neg h, if_neg hat]
      split_ifs <;> simp
    exact ⟨iff_of_false hnot hat, fun hcond => absurd hcond hat⟩

/-- Witness for `C3_atomic_path_iff`: a `confirmation` chunk popped on a fresh
state takes the immediate-emit path. -/
theorem C3_atomic_path_iff_witness :
    (confChunk "go").kind ≠ CANCELLED
    ∧ (processChunk (initState 0) ⟨confChunk "go", 0⟩).state.currentType = none := by
  refine ⟨by decide, ?_⟩
  exact (C3_atomic_path_iff (initState 0) ⟨confChunk "go", 0⟩ (by decide)).1.mpr (by decide)

/-- Joining a single string is that string. -/
theorem join_singleton (s : String) : String.join [s] = s := by
  show "" ++ s = s
  exact String.empty_append s

/-- A one-element-or-less list containing `c` is `[c]`. -/
theorem eq_singleton_of_mem_of_length_le_one {α : Type} {l : List α} {c : α}
    (hc : c ∈ l) (hl : l.length ≤ 1) : l = [c] := by
  cases l with
  | nil => cases hc
  | cons x rest =>
    cases rest with
    | nil => simp at hc; subst hc; rfl
    | cons y r => simp [List.length_cons] at hl

/-- A chunk that fails the atomic test has non-structured content. -/
theorem isStruct_false_of_not_atomic {k : Option String} {tc : TimedChunk}
    (hat : ¬(k.getD tc.chunk.kind = CONFIRMATION ∨ tc.chunk.content.isStruct = true)) :
    tc.chunk.content.isStruct = false := by
  rcases Bool.eq_false_or_eq_true tc.chunk.content.isStruct with hb | hb
  · exact absurd (Or.inr hb) hat
  · exact hb

/-- The initial instrumented state is well formed. -/
theorem IWF_initStateI (t0 : Int) : IWF (initStateI t0) := by
  refine ⟨rfl, ?_, ?_, ?_, ?_, ?_⟩ <;> simp [initStateI, initState]

/-- The metadata value the coalescer attaches on a flush is always present
while a kind is current or being adopted. -/
theorem cm_isSome {s : CoStateI}
    (h6 : s.st.currentType.isSome ↔ s.st.currentMeta.isSome) (c : QueueChunk) :
    (if s.st.currentType = none then some (metaOf c) else s.st.currentMeta).isSome = true := by
  by_cases hn : s.st.currentType = none
  · simp [hn]
  · simp only [if_neg hn]
    exact h6.mp (Option.isSome_iff_ne_none.mpr hn)

/-- One instrumented step preserves well-formedness. -/
theorem IWF_processChunkI (s : CoStateI) (tc : TimedChunk) (hwf : IWF s) :
    IWF (processChunkI s tc).state := by
  obtain ⟨h1, h2, h3, h4, h5, h6⟩ := hwf
  by_cases hc : tc.chunk.kind = CANCELLED
  · simp only [processChunkI]
    rw [if_pos hc]
    exact ⟨h1, h2, h3, h4, h5, h6⟩
  by_cases hat : s.st.currentType.getD tc.chunk.kind = CONFIRMATION
      ∨ tc.chunk.content.isStruct = true
  · simp only [processChunkI]
    rw [if_neg hc, if_pos hat]
    exact ⟨rfl, by simp, by simp, by simp, by simp, by simp⟩
  have hns : tc.chunk.content.isStruct = false := isStruct_false_of_not_atomic hat
  by_cases hty : tc.chunk.kind ≠ s.st.currentType.getD tc.chunk.kind
  · simp only [processChunkI]
    rw [if_neg hc, if_neg hat, if_pos hty]
    refine ⟨rfl, ?_, ?_, ?_, ?_, ?_⟩
    · intro c hcmem; simp at hcmem; subst hcmem; exact hns
    · intro c hcmem; simp at hcmem; subst hcmem; rfl
    · intro _; simp
    · intro hnone; simp at hnone
    · simp
  push_neg at hty
  by_cases hth : tc.time - s.st.lastYield > 500
      ∨ (s.st.accumulated ++ [tc.chunk.content.textD]).length > 10
  · simp only [processChunkI]
    rw [if_neg hc, if_neg hat, if_neg (not_not_intro hty), if_pos hth]
    refine ⟨rfl, by simp, by simp, by simp, by simp, ?_⟩
    exact iff_of_true rfl (cm_isSome h6 tc.chunk)
  · simp only [processChunkI]
    rw [if_neg hc, if_neg hat, if_neg (not_not_intro hty), if_neg hth]
    refine ⟨?_, ?_, ?_, ?_, ?_, ?_⟩
    · simp [h1]
    · intro c hcmem
      rcases List.mem_append.mp hcmem with hm | hm
      · exact h2 c hm
      · simp at hm; subst hm; exact hns
    · intro c hcmem
      rcases List.mem_append.mp hcmem with hm | hm
      · cases hcur : s.st.currentType with
        | none => rw [h5 hcur] at hm; cases hm
        | some k =>
          have h3' := h3 c hm
          rw [hcur] at h3'
          simpa using h3'
      · simp at hm; subst hm
        exact congrArg some hty
    · intro hconf
      exact absurd (Or.inl (Option.some.inj hconf)) hat
    · intro hnone; simp at hnone
    · exact iff_of_true rfl (cm_isSome h6 tc.chunk)

/-- Any flush of the buffer whose ghost sources contain a confirmation-kind or
structured-content chunk flushes exactly that chunk: by well-formedness the
buffer then holds it alone, and the flushed content is its content. -/
theorem flush_sources_ok (s : CoStateI) (hwf : IWF s) (c : QueueChunk)
    (hmem : c ∈ s.srcBuf) (hcond : c.kind = CONFIRMATION ∨ c.content.isStruct = true) :
    s.srcBuf = [c] ∧ Content.text (String.join s.st.accumulated) = c.content := by
  obtain ⟨h1, h2, h3, h4, h5, h6⟩ := hwf
  have hkind : c.kind = CONFIRMATION := by
    rcases hcond with h | h
    · exact h
    · rw [h2 c hmem] at h; cases h
  have hcur : s.st.currentType = some CONFIRMATION := by
    rw [← h3 c hmem, hkind]
  have hbuf : s.srcBuf = [c] := eq_singleton_of_mem_of_length_le_one hmem (h4 hcur)
  refine ⟨hbuf, ?_⟩
  rw [h1, hbuf]
  cases hct : c.content with
  | text t => simp [Content.textD, hct, join_singleton]
  | struct f =>
    have hb := h2 c hmem
    rw [hct] at hb
    simp [Content.isStruct] at hb

/-- Every value yielded by one step that carries a confirmation-kind or
structured-content source chunk carries it as its only source, with the
chunk's content verbatim. -/
theorem step_emit_ok (s : CoStateI) (tc : TimedChunk) (hwf : IWF s) :
    ∀ b ∈ (processChunkI s tc).emits, ∀ c ∈ b.sources,
      (c.kind = CONFIRMATION ∨ c.content.isStruct = true) →
      b.sources = [c] ∧ Emit.contentOf b.emit = c.content := by
  intro b hb c hc hcond
  by_cases hck : tc.chunk.kind = CANCELLED
  · simp only [processChunkI] at hb
    rw [if_pos hck] at hb
    simp at hb
    subst hb
    simp at hc
    subst hc
    exact ⟨rfl, rfl⟩
  by_cases hat : s.st.currentType.getD tc.chunk.kind = CONFIRMATION
      ∨ tc.chunk.content.isStruct = true
  · simp only [processChunkI] at hb
    rw [if_neg hck, if_pos hat] at hb
    by_cases hacc : s.st.accumulated = []
    · rw [if_pos hacc] at hb
      simp at hb
      subst hb
      simp at hc
      subst hc
      exact ⟨rfl, rfl⟩
    · rw [if_neg hacc] at hb
      rcases List.mem_append.mp hb with hmb | hmb
      · simp at hmb
        subst hmb
        exact flush_sources_ok s hwf c hc hcond
      · simp at hmb
        subst hmb
        simp at hc
        subst hc
        exact ⟨rfl, rfl⟩
  have hns := isStruct_false_of_not_atomic hat
  by_cases hty : tc.chunk.kind ≠ s.st.currentType.getD tc.chunk.kind
  · simp only [processChunkI] at hb
    rw [if_neg hck, if_neg hat, if_pos hty] at hb
    by_cases hacc : s.st.accumulated = []
    · rw [if_pos hacc] at hb; cases hb
    · rw [if_neg hacc] at hb
      simp at hb
      subst hb
      exact flush_sources_ok s hwf c hc hcond
  push_neg at hty
  by_cases hth : tc.time - s.st.lastYield > 500
      ∨ (s.st.accumulated ++ [tc.chunk.content.textD]).length > 10
  · simp only [processChunkI] at hb
    rw [if_neg hck, if_neg hat, if_neg (not_not_intro hty), if_pos hth] at hb
    simp at hb
    subst hb
    exfalso
    obtain ⟨h1, h2, h3, h4, h5, h6⟩ := hwf
    rcases List.mem_append.mp hc with hm | hm
    · rcases hcond with hx | hx
      · have h3' := h3 c hm
        cases hcur : s.st.currentType with
        | none => rw [h5 hcur] at hm; cases hm
        | some k =>
          rw [hcur] at h3'
          have hk : c.kind = k := Option.some.inj h3'
          apply hat
          left
          rw [hcur, Option.getD_some, ← hk]
          exact hx
      · rw [h2 c hm] at hx; cases hx
    · simp at hm
      subst hm
      rcases hcond with hx | hx
      · exact hat (Or.inl (by rw [← hty]; exact hx))
      · rw [hns] at hx; cases hx
  · simp only [processChunkI] at hb
    rw [if_neg hck, if_neg hat, if_neg (not_not_intro hty), if_neg hth] at hb
    cases hb

/-- Same property for the trailing flush. -/
theorem end_emit_ok (s : CoStateI) (hwf : IWF s) :
    ∀ b ∈ finalFlushI s, ∀ c ∈ b.sources,
      (c.kind = CONFIRMATION ∨ c.content.isStruct = true) →
      b.sources = [c] ∧ Emit.contentOf b.emit = c.content := by
  intro b hb c hc hcond
  unfold finalFlushI at hb
  by_cases hacc : s.st.accumulated = []
  · rw [if_pos hacc] at hb; cases hb
  · rw [if_neg hacc] at hb
    simp at hb
    subst hb
    exact flush_sources_ok s hwf c hc hcond

/-- The isolation property over a whole run, from any well-formed state. -/
theorem C4_aux (chunks : List TimedChunk) : ∀ s : CoStateI, IWF s →
    ∀ b ∈ coalesceLoopI s chunks, ∀ c ∈ b.sources,
      (c.kind = CONFIRMATION ∨ c.content.isStruct = true) →
      b.sources = [c] ∧ Emit.contentOf b.emit = c.content := by
  induction chunks with
  | nil =>
    intro s hwf b hb c hc hcond
    exact end_emit_ok s hwf b hb c hc hcond
  | cons tc rest ih =>
    intro s hwf b hb c hc hcond
    simp only [coalesceLoopI] at hb
    by_cases hbrk : (processChunkI s tc).brk
    · rw [if_pos hbrk] at hb
      rcases List.mem_append.mp hb with hm | hm
      · exact step_emit_ok s tc hwf b hm c hc hcond
      · exact end_emit_ok _ (IWF_processChunkI s tc hwf) b hm c hc hcond
    · rw [if_neg hbrk] at hb
      rcases List.mem_append.mp hb with hm | hm
      · exact step_emit_ok s tc hwf b hm c hc hcond
      · exact ih _ (IWF_processChunkI s tc hwf) b hm c hc hcond

/-- C4: in every invocation, any chunk of kind `confirmation` and any chunk
with a structured (non-text) content appears in the emitted output as its own
singleton block — the block's source list is exactly that chunk and the
block's content is the chunk's content, never a merge with neighbours. -/
theorem C4_atomic_isolation (chunks : List TimedChunk) (t0 : Int)
    (b : IEmit) (hb : b ∈ coalesceLoopI (initStateI t0) chunks)
    (c : QueueChunk) (hc : c ∈ b.sources)
    (hcond : c.kind = CONFIRMATION ∨ c.content.isStruct = true) :
    b.sources = [c] ∧ Emit.contentOf b.emit = c.content :=
  C4_aux chunks (initStateI t0) (IWF_initStateI t0) b hb c hc hcond

/-- Witness for `C4_atomic_isolation` at a concrete stream: a single
`confirmation` chunk is forwarded as its own block. -/
theorem C4_atomic_isolation_witness :
    (⟨.raw (confChunk "ok"), .atomicRaw, [confChunk "ok"]⟩ : IEmit).sources = [confChunk "ok"]
    ∧ Emit.contentOf (Emit.raw (confChunk "ok")) = (confChunk "ok").content :=
  C4_atomic_isolation (atZero [confChunk "ok"]) 0
    ⟨.raw (confChunk "ok"), .atomicRaw, [confChunk "ok"]⟩ (by decide)
    (confChunk "ok") (by decide) (by decide)

/-- Metadata presence on values yielded by one step: exactly the
pre-atomic-flush and threshold-flush yields carry the metadata key. -/
theorem step_md_ok (s : CoStateI) (tc : TimedChunk) (hwf : IWF s) :
    ∀ b ∈ (processChunkI s tc).emits,
      ((b.emit.md).isSome = true ↔ (b.tag = ETag.preAtomicFlush ∨ b.tag = ETag.thresholdFlush)) := by
  intro b hb
  obtain ⟨h1, h2, h3, h4, h5, h6⟩ := hwf
  by_cases hck : tc.chunk.kind = CANCELLED
  · simp only [processChunkI] at hb
    rw [if_pos hck] at hb
    simp at hb; subst hb
    simp [Emit.md]
  by_cases hat : s.st.currentType.getD tc.chunk.kind = CONFIRMATION
      ∨ tc.chunk.content.isStruct = true
  · simp only [processChunkI] at hb
    rw [if_neg hck, if_pos hat] at hb
    by_cases hacc : s.st.accumulated = []
    · rw [if_pos hacc] at hb
      simp at hb; subst hb
      simp [Emit.md]
    · rw [if_neg hacc] at hb
      rcases List.mem_append.mp hb with hmb | hmb
      · simp at hmb; subst hmb
        exact iff_of_true (cm_isSome h6 tc.chunk) (Or.inl rfl)
      · simp at hmb; subst hmb
        simp [Emit.md]
  by_cases hty : tc.chunk.kind ≠ s.st.currentType.getD tc.chunk.kind
  · simp only [processChunkI] at hb
    rw [if_neg hck, if_neg hat, if_pos hty] at hb
    by_cases hacc : s.st.accumulated = []
    · rw [if_pos hacc] at hb; cases hb
    · rw [if_neg hacc] at hb
      simp at hb; subst hb
      simp [Emit.md]
  push_neg at hty
  by_cases hth : tc.time - s.st.lastYield > 500
      ∨ (s.st.accumulated ++ [tc.chunk.content.textD]).length > 10
  · simp only [processChunkI] at hb
    rw [if_neg hck, if_neg hat, if_neg (not_not_intro hty), if_pos hth] at hb
    simp at hb; subst hb
    exact iff_of_true (cm_isSome h6 tc.chunk) (Or.inr rfl)
  · simp only [processChunkI] at hb
    rw [if_neg hck, if_neg hat, if_neg (not_not_intro hty), if_neg hth] at hb
    cases hb

/-- Metadata absence on the trailing flush. -/
theorem end_md_ok (s : CoStateI) :
    ∀ b ∈ finalFlushI s,
      ((b.emit.md).isSome = true ↔ (b.tag = ETag.preAtomicFlush ∨ b.tag = ETag.thresholdFlush)) := by
  intro b hb
  unfold finalFlushI at hb
  by_cases hacc : s.st.accumulated = []
  · rw [if_pos hacc] at hb; cases hb
  · rw [if_neg hacc] at hb
    simp at hb; subst hb
    simp [Emit.md]

/-- Metadata presence over a whole run, from any well-formed state. -/
theorem C6_aux (chunks : List TimedChunk) : ∀ s : CoStateI, IWF s →
    ∀ b ∈ coalesceLoopI s chunks,
      ((b.emit.md).isSome = true ↔ (b.tag = ETag.preAtomicFlush ∨ b.tag = ETag.thresholdFlush)) := by
  induction chunks with
  | nil =>
    intro s _ b hb
    exact end_md_ok s b hb
  | cons tc rest ih =>
    intro s hwf b hb
    simp only [coalesceLoopI] at hb
    by_cases hbrk : (processChunkI s tc).brk
    · rw [if_pos hbrk] at hb
      rcases List.mem_append.mp hb with hm | hm
      · exact step_md_ok s tc hwf b hm
      · exact end_md_ok _ b hm
    · rw [if_neg hbrk] at hb
      rcases List.mem_append.mp hb with hm | hm
      · exact step_md_ok s tc hwf b hm
      · exact ih _ (IWF_processChunkI s tc hwf) b hm

/-- C6 (amended): a delivered value carries a `metadata` field (with the
chunk's format and role) exactly when it is a pre-atomic-flush or a periodic
threshold-flush block; type-change flushes, the trailing flush and passthrough
chunks (confirmation, cancelled) carry none. -/
theorem C6_metadata_iff (chunks : List TimedChunk) (t0 : Int)
    (b : IEmit) (hb : b ∈ coalesceLoopI (initStateI t0) chunks) :
    ((b.emit.md).isSome = true ↔ (b.tag = ETag.preAtomicFlush ∨ b.tag = ETag.thresholdFlush)) :=
  C6_aux chunks (initStateI t0) (IWF_initStateI t0) b hb

/-- Witness for `C6_metadata_iff`: the single trailing-flush block of a
one-chunk stream carries no metadata. -/
theorem C6_metadata_iff_witness :
    ((Emit.md (Emit.block MESSAGE "hi" none)).isSome = true
      ↔ ((ETag.endFlush = ETag.preAtomicFlush) ∨ (ETag.endFlush = ETag.thresholdFlush))) :=
  C6_metadata_iff (atZero [msgChunk "hi"]) 0
    ⟨Emit.block MESSAGE "hi" none, ETag.endFlush, [msgChunk "hi"]⟩ (by decide)

/-- A non-cancelled chunk never breaks the loop. -/
theorem processChunk_brk_false {s : CoState} {tc : TimedChunk}
    (h : tc.chunk.kind ≠ CANCELLED) : (processChunk s tc).brk = false := by
  simp only [processChunk]
  rw [if_neg h]
  split_ifs <;> rfl

/-- A non-cancelled chunk never breaks the instrumented loop. -/
theorem processChunkI_brk_false {s : CoStateI} {tc : TimedChunk}
    (h : tc.chunk.kind ≠ CANCELLED) : (processChunkI s tc).brk = false := by
  simp only [processChunkI]
  rw [if_neg h]
  split_ifs <;> rfl

/-- Unfolding the loop one step when the popped chunk does not break it. -/
theorem coalesceLoop_cons_of_not_brk (s : CoState) (tc : TimedChunk)
    (rest : List TimedChunk) (h : (processChunk s tc).brk = false) :
    coalesceLoop s (tc :: rest)
      = (processChunk s tc).emits ++ coalesceLoop (processChunk s tc).state rest := by
  simp [coalesceLoop, h]

/-- Unfolding the instrumented loop one step when the chunk does not break it. -/
theorem coalesceLoopI_cons_of_not_brk (s : CoStateI) (tc : TimedChunk)
    (rest : List TimedChunk) (h : (processChunkI s tc).brk = false) :
    coalesceLoopI s (tc :: rest)
      = (processChunkI s tc).emits ++ coalesceLoopI (processChunkI s tc).state rest := by
  simp [coalesceLoopI, h]

/-- C5 auxiliary: from a state already buffering kind `k`, a same-kind
text-content run that stays within the flush window and fragment bound is
deferred wholly to the trailing flush, producing one joined block. -/
theorem C5_aux (k : String) (hk1 : k ≠ CONFIRMATION) (hk2 : k ≠ CANCELLED)
    (chunks : List TimedChunk) : ∀ (acc : List String) (cm : Option Metadata) (t0 : Int),
    acc ≠ [] → acc.length + chunks.length ≤ 10 →
    (∀ tc ∈ chunks, tc.chunk.kind = k) →
    (∀ tc ∈ chunks, tc.chunk.content.isStruct = false) →
    (∀ tc ∈ chunks, tc.time - t0 ≤ 500) →
    coalesceLoop ⟨some k, cm, acc, t0⟩ chunks
      = [Emit.block k (String.join (acc ++ chunks.map (fun tc => tc.chunk.content.textD))) none] := by
  induction chunks with
  | nil =>
    intro acc cm t0 hne _ _ _ _
    simp [coalesceLoop, finalFlush, hne]
  | cons tc rest ih =>
    intro acc cm t0 hne hlen hkind htext htime
    simp only [List.length_cons] at hlen
    have hk : tc.chunk.kind = k := hkind tc (by simp)
    have hs : tc.chunk.content.isStruct = false := htext tc (by simp)
    have ht : tc.time - t0 ≤ 500 := htime tc (by simp)
    have hck : ¬(tc.chunk.kind = CANCELLED) := by rw [hk]; exact hk2
    have hat : ¬((some k : Option String).getD tc.chunk.kind = CONFIRMATION
        ∨ tc.chunk.content.isStruct = true) := by
      rintro (h | h)
      · rw [Option.getD_some] at h; exact hk1 h
      · rw [hs] at h; cases h
    have hty : ¬(tc.chunk.kind ≠ (some k : Option String).getD tc.chunk.kind) := by
      rw [Option.getD_some, hk]
      exact not_not_intro rfl
    have hth : ¬(tc.time - t0 > 500 ∨ (acc ++ [tc.chunk.content.textD]).length > 10) := by
      rintro (h | h)
      · exact absurd h (not_lt.mpr ht)
      · simp only [List.length_append, List.length_cons, List.length_nil] at h
        omega
    have hstep : processChunk ⟨some k, cm, acc, t0⟩ tc
        = { emits := [],
            state := ⟨some k, cm, acc ++ [tc.chunk.content.textD], t0⟩, brk := false } := by
      simp only [processChunk]
      rw [if_neg hck, if_neg hat, if_neg hty, if_neg hth]
      simp
    rw [coalesceLoop_cons_of_not_brk _ _ _ (by rw [hstep]), hstep]
    simp only [List.nil_append]
    rw [ih (acc ++ [tc.chunk.content.textD]) cm t0 (by simp)
      (by simp only [List.length_append, List.length_cons, List.length_nil]; omega)
      (fun tc' h => hkind tc' (by simp [h]))
      (fun tc' h => htext tc' (by simp [h]))
      (fun tc' h => htime tc' (by simp [h]))]
    simp

/-- C5 (amended): for every non-empty run of at most ten text-content chunks
sharing one kind other than `confirmation` and `cancelled`, all popped within
0.5 s of the invocation start, the stream emits exactly one block whose
content is the ordered concatenation of the chunks' contents.  (The claim as
stated also quantifies over `confirmation` and `cancelled` runs, where it
fails — see the counterexample.) -/
theorem C5_uniform_join (k : String) (hk1 : k ≠ CONFIRMATION) (hk2 : k ≠ CANCELLED)
    (chunks : List TimedChunk) (t0 : Int)
    (hne : chunks ≠ [])
    (hlen : chunks.length ≤ 10)
    (hkind : ∀ tc ∈ chunks, tc.chunk.kind = k)
    (htext : ∀ tc ∈ chunks, tc.chunk.content.isStruct = false)
    (htime : ∀ tc ∈ chunks, tc.time - t0 ≤ 500) :
    coalesceLoop (initState t0) chunks
      = [Emit.block k (String.join (chunks.map (fun tc => tc.chunk.content.textD))) none] := by
  cases chunks with
  | nil => cases hne rfl
  | cons tc rest =>
    simp only [List.length_cons] at hlen
    have hk : tc.chunk.kind = k := hkind tc (by simp)
    have hs : tc.chunk.content.isStruct = false := htext tc (by simp)
    have ht : tc.time - t0 ≤ 500 := htime tc (by simp)
    have hck : ¬(tc.chunk.kind = CANCELLED) := by rw [hk]; exact hk2
    have hat : ¬((initState t0).currentType.getD tc.chunk.kind = CONFIRMATION
        ∨ tc.chunk.content.isStruct = true) := by
      rintro (h | h)
      · rw [show (initState t0).currentType.getD tc.chunk.kind = tc.chunk.kind from rfl, hk] at h
        exact hk1 h
      · rw [hs] at h; cases h
    have hth : ¬(tc.time - (initState t0).lastYield > 500
        ∨ ((initState t0).accumulated ++ [tc.chunk.content.textD]).length > 10) := by
      rintro (h | h)
      · exact absurd h (not_lt.mpr ht)
      · simp [initState] at h
    have hty : ¬(tc.chunk.kind ≠ (initState t0).currentType.getD tc.chunk.kind) :=
      not_not_intro rfl
    have hstep : processChunk (initState t0) tc
        = { emits := [],
            state := ⟨some k, some (metaOf tc.chunk), [tc.chunk.content.textD], t0⟩,
            brk := false } := by
      simp only [processChunk]
      rw [if_neg hck, if_neg hat, if_neg hty, if_neg hth]
      simp [initState, hk]
    rw [coalesceLoop_cons_of_not_brk _ _ _ (by rw [hstep]), hstep]
    simp only [List.nil_append]
    rw [C5_aux k hk1 hk2 rest [tc.chunk.content.textD] (some (metaOf tc.chunk)) t0
      (by simp)
      (by simp only [List.length_cons, List.length_nil]; omega)
      (fun tc' h => hkind tc' (by simp [h]))
      (fun tc' h => htext tc' (by simp [h]))
      (fun tc' h => htime tc' (by simp [h]))]
    simp

/-- Witness for `C5_uniform_join`: the spec §8 example-1 stream. -/
theorem C5_uniform_join_witness :
    coalesceLoop (initState 0) (atZero [msgChunk "Hello ", msgChunk "world", msgChunk "!"])
      = [Emit.block MESSAGE "Hello world!" none] := by
  rw [C5_uniform_join MESSAGE (by decide) (by decide)
    (atZero [msgChunk "Hello ", msgChunk "world", msgChunk "!"]) 0 (by decide) (by decide)
    (by decide) (by decide) (by decide)]
  decide

/-- C9 auxiliary: over a uniform text-content run of a kind other than
`confirmation` and `cancelled`, from a state whose current kind is that kind
or unset, a threshold-flush block is emitted as soon as the buffered fragment
count would pass 11 or some chunk is popped more than 500 ms after the last
flush. -/
theorem C9_aux (k : String) (hk1 : k ≠ CONFIRMATION) (hk2 : k ≠ CANCELLED)
    (chunks : List TimedChunk) : ∀ s : CoStateI,
    (s.st.currentType = some k ∨ s.st.currentType = none) →
    s.st.accumulated.length ≤ 10 →
    (∀ tc ∈ chunks, tc.chunk.kind = k) →
    (∀ tc ∈ chunks, tc.chunk.content.isStruct = false) →
    (s.st.accumulated.length + chunks.length ≥ 11
      ∨ ∃ tc ∈ chunks, tc.time - s.st.lastYield > 500) →
    ∃ b ∈ coalesceLoopI s chunks, b.tag = ETag.thresholdFlush := by
  induction chunks with
  | nil =>
    intro s _ hacc _ _ htrig
    rcases htrig with h | h
    · simp at h; omega
    · simp at h
  | cons tc rest ih =>
    intro s hcur hacc hkind htext htrig
    have hk : tc.chunk.kind = k := hkind tc (by simp)
    have hs : tc.chunk.content.isStruct = false := htext tc (by simp)
    have hck : ¬(tc.chunk.kind = CANCELLED) := by rw [hk]; exact hk2
    have hct : s.st.currentType.getD tc.chunk.kind = k := by
      rcases hcur with h | h <;> simp [h, hk]
    have hat : ¬(s.st.currentType.getD tc.chunk.kind = CONFIRMATION
        ∨ tc.chunk.content.isStruct = true) := by
      rintro (h | h)
      · rw [hct] at h; exact hk1 h
      · rw [hs] at h; cases h
    have hty : ¬(tc.chunk.kind ≠ s.st.currentType.getD tc.chunk.kind) := by
      rw [hct, hk]
      exact not_not_intro rfl
    rw [coalesceLoopI_cons_of_not_brk _ _ _ (processChunkI_brk_false hck)]
    by_cases hth : tc.time - s.st.lastYield > 500
        ∨ (s.st.accumulated ++ [tc.chunk.content.textD]).length > 10
    · have hemit : ∃ b ∈ (processChunkI s tc).emits, b.tag = ETag.thresholdFlush := by
        simp only [processChunkI]
        rw [if_neg hck, if_neg hat, if_neg hty, if_pos hth]
        exact ⟨_, List.mem_singleton.mpr rfl, rfl⟩
      obtain ⟨b, hb, htag⟩ := hemit
      exact ⟨b, List.mem_append.mpr (Or.inl hb), htag⟩
    · have hstep : (processChunkI s tc).state
          = ⟨⟨some k,
              (if s.st.currentType = none then some (metaOf tc.chunk) else s.st.currentMeta),
              s.st.accumulated ++ [tc.chunk.content.textD], s.st.lastYield⟩,
             s.srcBuf ++ [tc.chunk]⟩ := by
        simp only [processChunkI]
        rw [if_neg hck, if_neg hat, if_neg hty, if_neg hth]
        simp [hct]
      have hlen' : (s.st.accumulated ++ [tc.chunk.content.textD]).length ≤ 10 := by
        rcases not_or.mp hth with ⟨_, h2⟩
        omega
      have htrig' : (s.st.accumulated ++ [tc.chunk.content.textD]).length + rest.length ≥ 11
          ∨ ∃ tc' ∈ rest, tc'.time - s.st.lastYield > 500 := by
        rcases htrig with h | h
        · left
          simp only [List.length_append, List.length_cons, List.length_nil] at h ⊢
          omega
        · right
          obtain ⟨tc', hmem, hgt⟩ := h
          rcases List.mem_cons.mp hmem with rfl | hmem'
          · exact absurd hgt (not_or.mp hth).1
          · exact ⟨tc', hmem', hgt⟩
      obtain ⟨b, hb, htag⟩ := ih (processChunkI s tc).state
        (by rw [hstep]; exact Or.inl rfl)
        (by rw [hstep]; exact hlen')
        (fun tc' h => hkind tc' (by simp [h]))
        (fun tc' h => htext tc' (by simp [h]))
        (by rw [hstep]; exact htrig')
      exact ⟨b, List.mem_append.mpr (Or.inr hb), htag⟩

/-- C9 (amended): for every uniform text-content run of a kind other than
`confirmation` and `cancelled` that exceeds ten fragments, or pops some chunk
more than 0.5 s after the invocation start, at least one intermediate
threshold flush of the buffer (a block emitted by the periodic-flush rule,
under the unchanged current kind, with the buffer reset) occurs during the
run.  (The claim as stated also covers `confirmation` and `cancelled` runs,
where no buffer flush ever happens — see the counterexample.) -/
theorem C9_threshold_flush (k : String) (hk1 : k ≠ CONFIRMATION) (hk2 : k ≠ CANCELLED)
    (chunks : List TimedChunk) (t0 : Int)
    (hkind : ∀ tc ∈ chunks, tc.chunk.kind = k)
    (htext : ∀ tc ∈ chunks, tc.chunk.content.isStruct = false)
    (htrig : chunks.length ≥ 11 ∨ ∃ tc ∈ chunks, tc.time - t0 > 500) :
    ∃ b ∈ coalesceLoopI (initStateI t0) chunks, b.tag = ETag.thresholdFlush := by
  refine C9_aux k hk1 hk2 chunks (initStateI t0) (Or.inr rfl) (by simp [initStateI, initState])
    hkind htext ?_
  rcases htrig with h | h
  · left
    simpa [initStateI, initState] using h
  · right
    simpa [initStateI, initState] using h

/-- Witness for `C9_threshold_flush`: a run of eleven `message` fragments is
flushed by the fragment-count rule while the run is still being consumed. -/
theorem C9_threshold_flush_witness :
    (⟨Emit.block MESSAGE "xxxxxxxxxxx" (some ⟨"text", "assistant"⟩),
        ETag.thresholdFlush, List.replicate 11 (msgChunk "x")⟩ : IEmit)
      ∈ coalesceLoopI (initStateI 0) (atZero (List.replicate 11 (msgChunk "x"))) := by
  obtain ⟨b, hmem, htag⟩ := C9_threshold_flush MESSAGE (by decide) (by decide)
    (atZero (List.replicate 11 (msgChunk "x"))) 0 (by decide) (by decide) (Or.inl (by decide))
  have hb : b = ⟨Emit.block MESSAGE "xxxxxxxxxxx" (some ⟨"text", "assistant"⟩),
      ETag.thresholdFlush, List.replicate 11 (msgChunk "x")⟩ := by
    have hout : coalesceLoopI (initStateI 0) (atZero (List.replicate 11 (msgChunk "x")))
        = [⟨Emit.block MESSAGE "xxxxxxxxxxx" (some ⟨"text", "assistant"⟩),
            ETag.thresholdFlush, List.replicate 11 (msgChunk "x")⟩] := by decide
    rw [hout] at hmem
    exact List.mem_singleton.mp hmem
  rw [← hb]
  exact hmem

/-- With no cancellation, a producer run whose engine call raises pushes the
normalised units followed by exactly one error chunk. -/
theorem runProducerFrom_no_cancel (e : String) (units : List EngineUnit) : ∀ i : Nat,
    runProducerFrom none (some e) i units = units.filterMap normalizeUnit ++ [errChunk e] := by
  induction units with
  | nil => intro i; rfl
  | cons u rest ih =>
    intro i
    simp only [runProducerFrom, flagObserved, List.filterMap_cons]
    cases hn : normalizeUnit u <;> simp [hn, ih (i + 1)]

/-- A normalised chunk never has the bridge-internal kind `cancelled` unless
the engine unit itself carried it. -/
theorem normalized_kind_ne_cancelled (units : List EngineUnit)
    (h : ∀ u ∈ units, u.kind ≠ some CANCELLED) :
    ∀ c ∈ units.filterMap normalizeUnit, c.kind ≠ CANCELLED := by
  intro c hc
  rcases List.mem_filterMap.mp hc with ⟨u, hu, hnorm⟩
  unfold normalizeUnit at hnorm
  by_cases ht : u.truthy
  · rw [if_pos ht] at hnorm
    cases hcnt : u.content with
    | none => rw [hcnt] at hnorm; cases hnorm
    | some cc =>
      rw [hcnt] at hnorm
      dsimp only at hnorm
      by_cases hm : u.kind = some CONSOLE ∧ u.format = some "active_line"
      · rw [if_pos hm] at hnorm; cases hnorm
      · rw [if_neg hm] at hnorm
        obtain rfl := (Option.some.inj hnorm)
        intro hck
        cases hk : u.kind with
        | none =>
          rw [hk] at hck
          revert hck
          show ¬(MESSAGE = CANCELLED)
          decide
        | some x =>
          rw [hk] at hck
          simp at hck
          exact h u hu (by rw [hk, hck])
  · rw [if_neg ht] at hnorm; cases hnorm

/-- Timestamping distributes over list append with an index offset. -/
theorem timedFrom_append (tf : Nat → Int) (l₁ l₂ : List QueueChunk) : ∀ i : Nat,
    timedFrom tf i (l₁ ++ l₂) = timedFrom tf i l₁ ++ timedFrom tf (i + l₁.length) l₂ := by
  induction l₁ with
  | nil => intro i; simp [timedFrom]
  | cons c rest ih =>
    intro i
    simp only [List.cons_append, timedFrom, List.length_cons]
    rw [show i + (rest.length + 1) = i + 1 + rest.length from by omega]
    exact congrArg _ (ih (i + 1))

/-- The chunk of every timestamped element comes from the underlying list. -/
theorem mem_timedFrom (tf : Nat → Int) (l : List QueueChunk) : ∀ (i : Nat) (tc : TimedChunk),
    tc ∈ timedFrom tf i l → tc.chunk ∈ l := by
  induction l with
  | nil => intro i tc h; cases h
  | cons c rest ih =>
    intro i tc h
    rcases List.mem_cons.mp h with rfl | h'
    · exact List.mem_cons_self _ _
    · exact List.mem_cons_of_mem _ (ih (i + 1) tc h')

/-- After any run of non-cancelled chunks, popping the producer's error chunk
leaves an error-kind value as the last one the invocation yields. -/
theorem errLast (e : String) (te : Int) : ∀ (pre : List TimedChunk) (s : CoState),
    (∀ tc ∈ pre, tc.chunk.kind ≠ CANCELLED) →
    ∃ b, (coalesceLoop s (pre ++ [⟨errChunk e, te⟩])).getLast? = some b
      ∧ b.kindOf = ERROR := by
  intro pre
  induction pre with
  | nil =>
    intro s _
    have hck : ¬((errChunk e).kind = CANCELLED) := by
      show ¬(ERROR = CANCELLED)
      decide
    rw [List.nil_append,
      coalesceLoop_cons_of_not_brk _ _ _ (processChunk_brk_false hck)]
    by_cases hat : s.currentType.getD (errChunk e).kind = CONFIRMATION
        ∨ (errChunk e).content.isStruct = true
    · have hstep : processChunk s ⟨errChunk e, te⟩
          = { emits :=
                (if s.accumulated = [] then []
                 else [Emit.block (s.currentType.getD ERROR) (String.join s.accumulated)
                     (if s.currentType = none then some (metaOf (errChunk e)) else s.currentMeta)])
                ++ [.raw (errChunk e)],
              state := ⟨none, none, [], te⟩, brk := false } := by
        simp only [processChunk]
        rw [if_neg hck, if_pos hat]
        rfl
      rw [hstep]
      rw [show coalesceLoop (⟨none, none, [], te⟩ : CoState) [] = [] from rfl, List.append_nil]
      exact ⟨.raw (errChunk e), List.getLast?_concat _, rfl⟩
    · by_cases hty : (errChunk e).kind ≠ s.currentType.getD (errChunk e).kind
      · have hstep : processChunk s ⟨errChunk e, te⟩
            = { emits :=
                  (if s.accumulated = [] then []
                   else [Emit.block (s.currentType.getD ERROR) (String.join s.accumulated) none]),
                state := ⟨some ERROR, some (metaOf (errChunk e)), [e], te⟩, brk := false } := by
          simp only [processChunk]
          rw [if_neg hck, if_neg hat, if_pos hty]
          rfl
        rw [hstep]
        rw [show coalesceLoop (⟨some ERROR, some (metaOf (errChunk e)), [e], te⟩ : CoState) []
            = [Emit.block ERROR (String.join [e]) none] from by
          simp [coalesceLoop, finalFlush, ERROR]]
        exact ⟨Emit.block ERROR (String.join [e]) none,
          List.getLast?_concat _, rfl⟩
      · push_neg at hty
        have hgd : s.currentType.getD ERROR = ERROR := hty.symm
        by_cases hth : te - s.lastYield > 500
            ∨ (s.accumulated ++ [(errChunk e).content.textD]).length > 10
        · have hstep : processChunk s ⟨errChunk e, te⟩
              = { emits := [Emit.block (s.currentType.getD ERROR)
                      (String.join (s.accumulated ++ [e]))
                      (if s.currentType = none then some (metaOf (errChunk e)) else s.currentMeta)],
                  state := ⟨some (s.currentType.getD ERROR),
                    (if s.currentType = none then some (metaOf (errChunk e)) else s.currentMeta),
                    [], te⟩,
                  brk := false } := by
            simp only [processChunk]
            rw [if_neg hck, if_neg hat, if_neg (not_not_intro hty), if_pos hth]
            rfl
          rw [hstep]
          rw [show coalesceLoop (⟨some (s.currentType.getD ERROR),
              (if s.currentType = none then some (metaOf (errChunk e)) else s.currentMeta),
              [], te⟩ : CoState) [] = [] from rfl, List.append_nil]
          refine ⟨Emit.block (s.currentType.getD ERROR) (String.join (s.accumulated ++ [e]))
              (if s.currentType = none then some (metaOf (errChunk e)) else s.currentMeta),
            ?_, hgd⟩
          rfl
        · have hstep : processChunk s ⟨errChunk e, te⟩
              = { emits := [],
                  state := ⟨some (s.currentType.getD ERROR),
                    (if s.currentType = none then some (metaOf (errChunk e)) else s.currentMeta),
                    s.accumulated ++ [e], s.lastYield⟩,
                  brk := false } := by
            simp only [processChunk]
            rw [if_neg hck, if_neg hat, if_neg (not_not_intro hty), if_neg hth]
            rfl
          rw [hstep]
          rw [show coalesceLoop (⟨some (s.currentType.getD ERROR),
              (if s.currentType = none then some (metaOf (errChunk e)) else s.currentMeta),
              s.accumulated ++ [e], s.lastYield⟩ : CoState) []
              = [Emit.block (s.currentType.getD ERROR) (String.join (s.accumulated ++ [e])) none]
              from by simp [coalesceLoop, finalFlush]]
          exact ⟨Emit.block (s.currentType.getD ERROR) (String.join (s.accumulated ++ [e])) none,
            List.getLast?_concat _, hgd⟩
  | cons tc pre' ih =>
    intro s hpre
    have hck : tc.chunk.kind ≠ CANCELLED := hpre tc (by simp)
    rw [List.cons_append,
      coalesceLoop_cons_of_not_brk _ _ _ (processChunk_brk_false hck)]
    obtain ⟨b, hb, hbk⟩ := ih (processChunk s tc).state (fun tc' h => hpre tc' (by simp [h]))
    refine ⟨b, ?_, hbk⟩
    rw [List.getLast?_append_of_ne_nil _ (by intro hnil; rw [hnil] at hb; simp at hb)]
    exact hb

/-- C8: `process_message_stream` converts producer and runtime failures into a
terminal error block instead of raising: an uninitialised bridge yields
exactly the single degraded-state error block; a producer whose engine call
raises pushes the normalised units followed by one error chunk and stops; and
the resulting stream always ends with an error-kind value. -/
theorem C8_error_surface :
    (∀ (t0 : Int) (q : List TimedChunk),
        streamInvoke false t0 q = [Emit.block ERROR initErrMsg none])
    ∧ (∀ (units : List EngineUnit) (e : String),
        runProducer units none (some e) = units.filterMap normalizeUnit ++ [errChunk e])
    ∧ (∀ (units : List EngineUnit) (e : String) (tf : Nat → Int) (t0 : Int),
        (∀ u ∈ units, u.kind ≠ some CANCELLED) →
        ∃ b, (streamInvoke true t0 (timed tf (runProducer units none (some e)))).getLast?
            = some b ∧ b.kindOf = ERROR) := by
  refine ⟨fun t0 q => rfl, fun units e => runProducerFrom_no_cancel e units 0, ?_⟩
  intro units e tf t0 hu
  have hrp : runProducer units none (some e)
      = units.filterMap normalizeUnit ++ [errChunk e] := runProducerFrom_no_cancel e units 0
  rw [show streamInvoke true t0 (timed tf (runProducer units none (some e)))
      = coalesceLoop (initState t0) (timed tf (runProducer units none (some e))) from rfl,
    hrp, timed, timedFrom_append]
  rw [show timedFrom tf (0 + (units.filterMap normalizeUnit).length) [errChunk e]
      = [⟨errChunk e, tf (0 + (units.filterMap normalizeUnit).length)⟩] from rfl]
  exact errLast e (tf (0 + (units.filterMap normalizeUnit).length))
    (timedFrom tf 0 (units.filterMap normalizeUnit)) (initState t0)
    (fun tc h => normalized_kind_ne_cancelled units hu tc.chunk
      (mem_timedFrom tf (units.filterMap normalizeUnit) 0 tc h))

/-- Witness for `C8_error_surface`: one message unit followed by an engine
exception ends the stream with the error block. -/
theorem C8_error_surface_witness :
    (streamInvoke true 0 (timed (fun _ => 0) (runProducer [msgUnit "hi"] none (some "boom")))).getLast?
      = some (Emit.block ERROR "boom" none) := by
  obtain ⟨b, hb, hk⟩ := C8_error_surface.2.2 [msgUnit "hi"] "boom" (fun _ => 0) 0 (by decide)
  have hbv : b = Emit.block ERROR "boom" none := by
    have hout : (streamInvoke true 0
        (timed (fun _ => 0) (runProducer [msgUnit "hi"] none (some "boom")))).getLast?
        = some (Emit.block ERROR "boom" none) := by decide
    rw [hout] at hb
    exact (Option.some.inj hb).symm
  rw [hbv] at hb
  exact hb

/-- Every value yielded by one step is consistent with its ghost sources. -/
theorem step_content_ok (s : CoStateI) (tc : TimedChunk) (hwf : IWF s) :
    ∀ b ∈ (processChunkI s tc).emits, b.contentMatchesSources := by
  intro b hb
  obtain ⟨h1, h2, h3, h4, h5, h6⟩ := hwf
  by_cases hck : tc.chunk.kind = CANCELLED
  · simp only [processChunkI] at hb
    rw [if_pos hck] at hb
    simp at hb; subst hb
    exact rfl
  by_cases hat : s.st.currentType.getD tc.chunk.kind = CONFIRMATION
      ∨ tc.chunk.content.isStruct = true
  · simp only [processChunkI] at hb
    rw [if_neg hck, if_pos hat] at hb
    by_cases hacc : s.st.accumulated = []
    · rw [if_pos hacc] at hb
      simp at hb; subst hb
      exact rfl
    · rw [if_neg hacc] at hb
      rcases List.mem_append.mp hb with hmb | hmb
      · simp at hmb; subst hmb
        show String.join s.st.accumulated = _
        rw [h1]
      · simp at hmb; subst hmb
        exact rfl
  by_cases hty : tc.chunk.kind ≠ s.st.currentType.getD tc.chunk.kind
  · simp only [processChunkI] at hb
    rw [if_neg hck, if_neg hat, if_pos hty] at hb
    by_cases hacc : s.st.accumulated = []
    · rw [if_pos hacc] at hb; cases hb
    · rw [if_neg hacc] at hb
      simp at hb; subst hb
      show String.join s.st.accumulated = _
      rw [h1]
  push_neg at hty
  by_cases hth : tc.time - s.st.lastYield > 500
      ∨ (s.st.accumulated ++ [tc.chunk.content.textD]).length > 10
  · simp only [processChunkI] at hb
    rw [if_neg hck, if_neg hat, if_neg (not_not_intro hty), if_pos hth] at hb
    simp at hb; subst hb
    show String.join (s.st.accumulated ++ [tc.chunk.content.textD]) = _
    rw [h1]
    simp
  · simp only [processChunkI] at hb
    rw [if_neg hck, if_neg hat, if_neg (not_not_intro hty), if_neg hth] at hb
    cases hb

/-- The trailing flush is consistent with its ghost sources. -/
theorem end_content_ok (s : CoStateI) (hwf : IWF s) :
    ∀ b ∈ finalFlushI s, b.contentMatchesSources := by
  intro b hb
  obtain ⟨h1, _, _, _, _, _⟩ := hwf
  unfold finalFlushI at hb
  by_cases hacc : s.st.accumulated = []
  · rw [if_pos hacc] at hb; cases hb
  · rw [if_neg hacc] at hb
    simp at hb; subst hb
    show String.join s.st.accumulated = _
    rw [h1]

/-- In every invocation, every yielded value is consistent with its ghost
sources: passthrough values record exactly their chunk and every flush
block's content is the ordered join of exactly the chunks recorded for it —
the instrumentation is sound, so `IEmit.sources` faithfully names the chunks
coalesced into each block. -/
theorem content_ok (chunks : List TimedChunk) : ∀ s : CoStateI, IWF s →
    ∀ b ∈ coalesceLoopI s chunks, b.contentMatchesSources := by
  induction chunks with
  | nil =>
    intro s hwf b hb
    exact end_content_ok s hwf b hb
  | cons tc rest ih =>
    intro s hwf b hb
    simp only [coalesceLoopI] at hb
    by_cases hbrk : (processChunkI s tc).brk
    · rw [if_pos hbrk] at hb
      rcases List.mem_append.mp hb with hm | hm
      · exact step_content_ok s tc hwf b hm
      · exact end_content_ok _ (IWF_processChunkI s tc hwf) b hm
    · rw [if_neg hbrk] at hb
      rcases List.mem_append.mp hb with hm | hm
      · exact step_content_ok s tc hwf b hm
      · exact ih _ (IWF_processChunkI s tc hwf) b hm

/-- In a cancellation-free run the concatenation of the yielded values' ghost
source lists is exactly the consumed queue, in order: no chunk is dropped,
duplicated or reordered across blocks.  (The cancellation path violates this
— see `C2_sources_out_of_order`.) -/
theorem sources_ordered_of_no_cancel (chunks : List TimedChunk) : ∀ s : CoStateI, IWF s →
    (∀ tc ∈ chunks, tc.chunk.kind ≠ CANCELLED) →
    ((coalesceLoopI s chunks).map IEmit.sources).flatten
      = s.srcBuf ++ chunks.map (fun tc => tc.chunk) := by
  induction chunks with
  | nil =>
    intro s hwf _
    obtain ⟨h1, _, _, _, _, _⟩ := hwf
    unfold coalesceLoopI finalFlushI
    by_cases hacc : s.st.accumulated = []
    · rw [if_pos hacc]
      rw [hacc] at h1
      have hsrc : s.srcBuf = [] := by
        cases hs : s.srcBuf with
        | nil => rfl
        | cons x r => rw [hs] at h1; cases h1
      simp [hsrc]
    · rw [if_neg hacc]
      simp
  | cons tc rest ih =>
    intro s hwf hnc
    have hck : tc.chunk.kind ≠ CANCELLED := hnc tc (by simp)
    have hwf' := IWF_processChunkI s tc hwf
    rw [coalesceLoopI_cons_of_not_brk _ _ _ (processChunkI_brk_false hck)]
    rw [List.map_append, List.flatten_append,
      ih _ hwf' (fun tc' h => hnc tc' (by simp [h]))]
    obtain ⟨h1, h2, h3, h4, h5, h6⟩ := hwf
    by_cases hat : s.st.currentType.getD tc.chunk.kind = CONFIRMATION
        ∨ tc.chunk.content.isStruct = true
    · have hstepE : (processChunkI s tc).emits
          = (if s.st.accumulated = [] then []
             else [⟨Emit.block (s.st.currentType.getD tc.chunk.kind)
                 (String.join s.st.accumulated)
                 (if s.st.currentType = none then some (metaOf tc.chunk) else s.st.currentMeta),
               .preAtomicFlush, s.srcBuf⟩])
            ++ [⟨.raw tc.chunk, .atomicRaw, [tc.chunk]⟩] := by
        simp only [processChunkI]
        rw [if_neg hck, if_pos hat]
      have hstepS : (processChunkI s tc).state.srcBuf = [] := by
        simp only [processChunkI]
        rw [if_neg hck, if_pos hat]
      rw [hstepE, hstepS]
      by_cases hacc : s.st.accumulated = []
      · have hsrc : s.srcBuf = [] := by
          rw [hacc] at h1
          cases hs : s.srcBuf with
          | nil => rfl
          | cons x r => rw [hs] at h1; cases h1
        rw [if_pos hacc]
        simp [hsrc]
      · rw [if_neg hacc]
        simp
    by_cases hty : tc.chunk.kind ≠ s.st.currentType.getD tc.chunk.kind
    · have hstepE : (processChunkI s tc).emits
          = (if s.st.accumulated = [] then []
             else [⟨Emit.block (s.st.currentType.getD tc.chunk.kind)
                 (String.join s.st.accumulated) none, .typeChangeFlush, s.srcBuf⟩]) := by
        simp only [processChunkI]
        rw [if_neg hck, if_neg hat, if_pos hty]
      have hstepS : (processChunkI s tc).state.srcBuf = [tc.chunk] := by
        simp only [processChunkI]
        rw [if_neg hck, if_neg hat, if_pos hty]
      rw [hstepE, hstepS]
      by_cases hacc : s.st.accumulated = []
      · have hsrc : s.srcBuf = [] := by
          rw [hacc] at h1
          cases hs : s.srcBuf with
          | nil => rfl
          | cons x r => rw [hs] at h1; cases h1
        rw [if_pos hacc]
        simp [hsrc]
      · rw [if_neg hacc]
        simp
    push_neg at hty
    by_cases hth : tc.time - s.st.lastYield > 500
        ∨ (s.st.accumulated ++ [tc.chunk.content.textD]).length > 10
    · have hstepE : (processChunkI s tc).emits
          = [⟨Emit.block (s.st.currentType.getD tc.chunk.kind)
              (String.join (s.st.accumulated ++ [tc.chunk.content.textD]))
              (if s.st.currentType = none then some (metaOf tc.chunk) else s.st.currentMeta),
             .thresholdFlush, s.srcBuf ++ [tc.chunk]⟩] := by
        simp only [processChunkI]
        rw [if_neg hck, if_neg hat, if_neg (not_not_intro hty), if_pos hth]
      have hstepS : (processChunkI s tc).state.srcBuf = [] := by
        simp only [processChunkI]
        rw [if_neg hck, if_neg hat, if_neg (not_not_intro hty), if_pos hth]
      rw [hstepE, hstepS]
      simp
    · have hstepE : (processChunkI s tc).emits = [] := by
        simp only [processChunkI]
        rw [if_neg hck, if_neg hat, if_neg (not_not_intro hty), if_neg hth]
      have hstepS : (processChunkI s tc).state.srcBuf = s.srcBuf ++ [tc.chunk] := by
        simp only [processChunkI]
        rw [if_neg hck, if_neg hat, if_neg (not_not_intro hty), if_neg hth]
      rw [hstepE, hstepS]
      simp

end Bridge
